import Mathlib

/-!
Verification development for the LocalStack hot-reload plugin.

Shallow embedding of the plugin's core logic:
* `expandEnvironmentVariables` (utils): two-pass placeholder expansion,
  braced `${NAME}` form first, then bare `$NAME` form with a negative
  lookahead for `{`.
* `getFileExtensionsForRuntime` (runtime-config): tiered runtime → file
  extension resolution over a default table merged with caller overrides.
* `HotReloadWatcher` (hot-reload): watch registration, debounced change
  handling, start/stop lifecycle, modelled as a pure state machine.
* `LocalStackCLI.isHealthy` / `waitForReady` (cli): bounded readiness
  polling, modelled over an abstract per-attempt fetch outcome.

Strings are modelled as `List Char`; the process environment as a partial
map from names to values; time as natural-number milliseconds.
-/

/-- Strings of the embedded program, as lists of characters. -/
abbrev Str := List Char

/-- The process environment: a partial map from variable names to values
(`process.env[name]`). -/
abbrev Env := Str → Option Str

/-- First character class of a bare placeholder name, from the regex
class `[A-Za-z_]`. -/
def isIdentStart (c : Char) : Bool :=
  ('A' ≤ c && c ≤ 'Z') || ('a' ≤ c && c ≤ 'z') || c = '_'

/-- Continuation character class of a bare placeholder name, from the
regex class `[A-Za-z0-9_]`. -/
def isIdentChar (c : Char) : Bool :=
  isIdentStart c || ('0' ≤ c && c ≤ '9')

/-- ASCII decimal digit test, from the regex class `[0-9]`. -/
def isDigitChar (c : Char) : Bool :=
  '0' ≤ c && c ≤ '9'

/-- Splits a string at its first `\x7d` character: returns the part
before it and the part after it, or `none` when it does not occur.
This is the search performed by the regex fragment `([^}]+)\x7d`. -/
def splitAtRBrace : Str → Option (Str × Str)
  | [] => none
  | c :: cs =>
      if c = '}' then some ([], cs)
      else (splitAtRBrace cs).map (fun p => (c :: p.1, p.2))

/-- Longest prefix of identifier-continuation characters, together with
the remainder: the greedy match of `[A-Za-z0-9_]*`. -/
def takeIdent : Str → Str × Str
  | [] => ([], [])
  | c :: cs =>
      if isIdentChar c then
        let p := takeIdent cs
        (c :: p.1, p.2)
      else ([], c :: cs)

/-- Splits a nonempty list into its leading part and its last element. -/
def splitLast : Str → Option (Str × Char)
  | [] => none
  | c :: cs =>
      match splitLast cs with
      | none => some ([], c)
      | some p => some (c :: p.1, p.2)

/-- Pass 1 of `expandEnvironmentVariables`: the global replacement of the
braced form, regex `\$\x7b([^}]+)\x7d`.  A bound name is replaced by its
value (the value is not rescanned); an unbound name is kept verbatim with
its delimiters; on no match the scanner advances one character.  `fuel`
bounds the recursion and is always called with at least the input length,
which suffices because every step consumes at least one input character. -/
def expandBraced (env : Env) : Nat → Str → Str
  | 0, s => s
  | _ + 1, [] => []
  | _ + 1, [c] => [c]
  | fuel + 1, c :: c2 :: rest =>
      if c = '$' ∧ c2 = '{' then
        match splitAtRBrace rest with
        | some (nm, rest') =>
            if nm = [] then c :: expandBraced env fuel (c2 :: rest)
            else
              match env nm with
              | some v => v ++ expandBraced env fuel rest'
              | none => c :: c2 :: (nm ++ '}' :: expandBraced env fuel rest')
        | none => c :: expandBraced env fuel (c2 :: rest)
      else c :: expandBraced env fuel (c2 :: rest)

/-- Names referenced by the braced pass of the scan, in match order.  The
scan structure is identical to `expandBraced`; the sequence of matches is
independent of the environment because scanning always resumes after the
matched region, never inside a replacement. -/
def bracedRefs : Nat → Str → List Str
  | 0, _ => []
  | _ + 1, [] => []
  | _ + 1, [_] => []
  | fuel + 1, c :: c2 :: rest =>
      if c = '$' ∧ c2 = '{' then
        match splitAtRBrace rest with
        | some (nm, rest') =>
            if nm = [] then bracedRefs fuel (c2 :: rest)
            else nm :: bracedRefs fuel rest'
        | none => bracedRefs fuel (c2 :: rest)
      else bracedRefs fuel (c2 :: rest)

/-- Pass 2 of `expandEnvironmentVariables`: the global replacement of the
bare form, regex `\$([A-Za-z_][A-Za-z0-9_]*)(?!\x7b)`.  The greedy
identifier run backtracks one character when followed by `\x7b` (the
character then following the shortened match is an identifier character,
so the lookahead succeeds); a single-character run followed by `\x7b`
cannot backtrack and the match fails, advancing the scanner past `$`. -/
def expandBare (env : Env) : Nat → Str → Str
  | 0, s => s
  | _ + 1, [] => []
  | _ + 1, [c] => [c]
  | fuel + 1, c :: c1 :: cs' =>
      if c = '$' ∧ isIdentStart c1 then
        if (takeIdent (c1 :: cs')).2.head? = some '{' then
          match splitLast (takeIdent (c1 :: cs')).1 with
          | some (nm, lastc) =>
              if nm = [] then c :: expandBare env fuel (c1 :: cs')
              else
                match env nm with
                | some v => v ++ expandBare env fuel (lastc :: (takeIdent (c1 :: cs')).2)
                | none => c :: (nm ++ expandBare env fuel (lastc :: (takeIdent (c1 :: cs')).2))
          | none => c :: expandBare env fuel (c1 :: cs')
        else
          match env (takeIdent (c1 :: cs')).1 with
          | some v => v ++ expandBare env fuel (takeIdent (c1 :: cs')).2
          | none => c :: ((takeIdent (c1 :: cs')).1 ++ expandBare env fuel (takeIdent (c1 :: cs')).2)
      else c :: expandBare env fuel (c1 :: cs')

/-- Names referenced by the bare pass of the scan, in match order; same
scan structure as `expandBare` and likewise environment-independent. -/
def bareRefs : Nat → Str → List Str
  | 0, _ => []
  | _ + 1, [] => []
  | _ + 1, [_] => []
  | fuel + 1, c :: c1 :: cs' =>
      if c = '$' ∧ isIdentStart c1 then
        if (takeIdent (c1 :: cs')).2.head? = some '{' then
          match splitLast (takeIdent (c1 :: cs')).1 with
          | some (nm, lastc) =>
              if nm = [] then bareRefs fuel (c1 :: cs')
              else nm :: bareRefs fuel (lastc :: (takeIdent (c1 :: cs')).2)
          | none => bareRefs fuel (c1 :: cs')
        else (takeIdent (c1 :: cs')).1 :: bareRefs fuel (takeIdent (c1 :: cs')).2
      else bareRefs fuel (c1 :: cs')

/-- One scanned piece of a replacement pass: literal text copied through
unchanged, or the name of a matched placeholder reference. -/
inductive RefTok where
  | lit (s : Str)
  | ref (nm : Str)
deriving DecidableEq

/-- Concatenation of the rendering of each scanned piece: the output
that a global regex replacement assembles left to right. -/
def renderToks (render : RefTok → Str) : List RefTok → Str
  | [] => []
  | t :: ts => render t ++ renderToks render ts

/-- Rendering of one braced-pass piece: literal text passes through; a
reference is replaced by its bound value, or kept unexpanded and
verbatim with its delimiters when its name is unbound. -/
def renderBracedTok (env : Env) : RefTok → Str
  | RefTok.lit l => l
  | RefTok.ref nm =>
      match env nm with
      | some v => v
      | none => '$' :: '{' :: (nm ++ ['}'])

/-- Rendering of one bare-pass piece: literal text passes through; a
reference is replaced by its bound value, or kept unexpanded and
verbatim with its `$` delimiter when its name is unbound. -/
def renderBareTok (env : Env) : RefTok → Str
  | RefTok.lit l => l
  | RefTok.ref nm =>
      match env nm with
      | some v => v
      | none => '$' :: nm

/-- The pieces scanned by the braced pass, in order: the same scan as
`expandBraced` but independent of the environment — the sequence of
match positions never depends on the bindings, because scanning always
resumes after the matched region and never inside a replacement. -/
def bracedToks : Nat → Str → List RefTok
  | 0, s => [RefTok.lit s]
  | _ + 1, [] => []
  | _ + 1, [c] => [RefTok.lit [c]]
  | fuel + 1, c :: c2 :: rest =>
      if c = '$' ∧ c2 = '{' then
        match splitAtRBrace rest with
        | some (nm, rest') =>
            if nm = [] then RefTok.lit [c] :: bracedToks fuel (c2 :: rest)
            else RefTok.ref nm :: bracedToks fuel rest'
        | none => RefTok.lit [c] :: bracedToks fuel (c2 :: rest)
      else RefTok.lit [c] :: bracedToks fuel (c2 :: rest)

/-- The pieces scanned by the bare pass, in order; same scan structure
as `expandBare` and likewise environment-independent. -/
def bareToks : Nat → Str → List RefTok
  | 0, s => [RefTok.lit s]
  | _ + 1, [] => []
  | _ + 1, [c] => [RefTok.lit [c]]
  | fuel + 1, c :: c1 :: cs' =>
      if c = '$' ∧ isIdentStart c1 then
        if (takeIdent (c1 :: cs')).2.head? = some '{' then
          match splitLast (takeIdent (c1 :: cs')).1 with
          | some (nm, lastc) =>
              if nm = [] then RefTok.lit [c] :: bareToks fuel (c1 :: cs')
              else RefTok.ref nm :: bareToks fuel (lastc :: (takeIdent (c1 :: cs')).2)
          | none => RefTok.lit [c] :: bareToks fuel (c1 :: cs')
        else RefTok.ref (takeIdent (c1 :: cs')).1 :: bareToks fuel (takeIdent (c1 :: cs')).2
      else RefTok.lit [c] :: bareToks fuel (c1 :: cs')

/-- The expansion function of utils: empty input is returned unchanged,
otherwise the braced pass runs first and the bare pass runs on its
output, so a bare-form pattern immediately followed by a brace reference
is never misread as the start of a braced reference. -/
def expandEnvironmentVariables (env : Env) (value : Str) : Str :=
  if value = [] then value
  else
    let expanded := expandBraced env value.length value
    expandBare env expanded.length expanded

/-- Association-list lookup with string keys, first binding wins: the
own-property lookup `table[key]` on a record object. -/
def alookup {β : Type} (k : Str) : List (Str × β) → Option β
  | [] => none
  | (k', v) :: rest => if k = k' then some v else alookup k rest

/-- Extension list for the Python family of runtimes. -/
def pyE : List Str := [['.', 'p', 'y']]

/-- Extension list for the Node.js family of runtimes. -/
def nodeE : List Str :=
  [['.', 'j', 's'], ['.', 'm', 'j', 's'], ['.', 'c', 'j', 's'],
   ['.', 't', 's'], ['.', 't', 's', 'x'], ['.', 'j', 's', 'x']]

/-- Extension list for the Java family of runtimes. -/
def javaE : List Str :=
  [['.', 'j', 'a', 'v', 'a'], ['.', 'j', 'a', 'r'], ['.', 'c', 'l', 'a', 's', 's']]

/-- Extension list for the .NET family of runtimes. -/
def dotnetE : List Str :=
  [['.', 'c', 's'], ['.', 'f', 's'], ['.', 'v', 'b'], ['.', 'd', 'l', 'l']]

/-- Extension list for the Ruby family of runtimes. -/
def rubyE : List Str := [['.', 'r', 'b']]

/-- Extension list for the Go family of runtimes. -/
def goE : List Str := [['.', 'g', 'o']]

/-- Extension list for the Rust custom runtime. -/
def rustE : List Str := [['.', 'r', 's']]

/-- Extension list for the PowerShell runtime. -/
def psE : List Str :=
  [['.', 'p', 's', '1'], ['.', 'p', 's', 'm', '1'], ['.', 'p', 's', 'd', '1']]

/-- The built-in runtime → extension table of runtime-config. -/
def DEFAULT_RUNTIME_FILE_EXTENSIONS : List (Str × List Str) :=
  [(['p', 'y', 't', 'h', 'o', 'n'], pyE),
   (['p', 'y', 't', 'h', 'o', 'n', '3'], pyE),
   (['p', 'y', 't', 'h', 'o', 'n', '3', '.', '8'], pyE),
   (['p', 'y', 't', 'h', 'o', 'n', '3', '.', '9'], pyE),
   (['p', 'y', 't', 'h', 'o', 'n', '3', '.', '1', '0'], pyE),
   (['p', 'y', 't', 'h', 'o', 'n', '3', '.', '1', '1'], pyE),
   (['p', 'y', 't', 'h', 'o', 'n', '3', '.', '1', '2'], pyE),
   (['n', 'o', 'd', 'e', 'j', 's'], nodeE),
   (['n', 'o', 'd', 'e', 'j', 's', '1', '8', '.', 'x'], nodeE),
   (['n', 'o', 'd', 'e', 'j', 's', '2', '0', '.', 'x'], nodeE),
   (['n', 'o', 'd', 'e', 'j', 's', '2', '2', '.', 'x'], nodeE),
   (['j', 'a', 'v', 'a'], javaE),
   (['j', 'a', 'v', 'a', '8'], javaE),
   (['j', 'a', 'v', 'a', '1', '1'], javaE),
   (['j', 'a', 'v', 'a', '1', '7'], javaE),
   (['j', 'a', 'v', 'a', '2', '1'], javaE),
   (['d', 'o', 't', 'n', 'e', 't'], dotnetE),
   (['d', 'o', 't', 'n', 'e', 't', '6'], dotnetE),
   (['d', 'o', 't', 'n', 'e', 't', '8'], dotnetE),
   (['d', 'o', 't', 'n', 'e', 't', 'c', 'o', 'r', 'e', '3', '.', '1'], dotnetE),
   (['r', 'u', 'b', 'y'], rubyE),
   (['r', 'u', 'b', 'y', '3', '.', '2'], rubyE),
   (['r', 'u', 'b', 'y', '3', '.', '3'], rubyE),
   (['g', 'o'], goE),
   (['g', 'o', '1', '.', 'x'], goE),
   (['r', 'u', 's', 't'], rustE),
   (['p', 'o', 'w', 'e', 'r', 's', 'h', 'e', 'l', 'l'], psE)]

/-- The built-in fallback extension list for unknown runtimes. -/
def DEFAULT_FILE_EXTENSIONS : List Str :=
  [['.', 'p', 'y'], ['.', 'j', 's'], ['.', 'm', 'j', 's'], ['.', 'c', 'j', 's'],
   ['.', 't', 's'], ['.', 'j', 'a', 'v', 'a'], ['.', 'c', 's'], ['.', 'g', 'o'],
   ['.', 'r', 'b'], ['.', 'r', 's']]

/-- Prefix of a string before its first `.` character: the computation
`runtime.split('.')[0]`. -/
def splitHeadDot : Str → Str
  | [] => []
  | c :: cs => if c = '.' then [] else c :: splitHeadDot cs

/-- Removal of the maximal trailing run of decimal digits: the single
replacement `replace(/[0-9]+$/, '')`. -/
def stripTrailingDigits (s : Str) : Str :=
  (s.reverse.dropWhile isDigitChar).reverse

/-- The merged mapping `\x7b...DEFAULT_RUNTIME_FILE_EXTENSIONS, ...customMappings\x7d`
as a lookup: an override entry shadows the default entry of an identical
key while unrelated default entries remain. -/
def effTable (customMappings : Option (List (Str × List Str))) (k : Str) :
    Option (List Str) :=
  match alookup k (customMappings.getD []) with
  | some v => some v
  | none => alookup k DEFAULT_RUNTIME_FILE_EXTENSIONS

/-- Tiered runtime resolution of runtime-config: the exact key is tried
first against the effective table, then the prefix before the first `.`
when non-empty, then that prefix with trailing digits stripped when
non-empty, and otherwise the built-in fallback list is returned.  The
non-emptiness guards come from the truthiness tests
`if (runtimeBase && ...)` and `if (runtimeFamily && ...)` in the source. -/
def getFileExtensionsForRuntime (runtime : Str)
    (customMappings : Option (List (Str × List Str))) : List Str :=
  match effTable customMappings runtime with
  | some exts => exts
  | none =>
      let runtimeBase := splitHeadDot runtime
      if runtimeBase = [] then DEFAULT_FILE_EXTENSIONS
      else
        match effTable customMappings runtimeBase with
        | some exts => exts
        | none =>
            let runtimeFamily := stripTrailingDigits runtimeBase
            if runtimeFamily = [] then DEFAULT_FILE_EXTENSIONS
            else
              match effTable customMappings runtimeFamily with
              | some exts => exts
              | none => DEFAULT_FILE_EXTENSIONS

/-- Tiered resolution exactly as the specification words it, for
comparison with the source function: tier 2 tries the prefix before the
first `.` and tier 3 tries that prefix with trailing decimal digits
stripped, with no condition that either candidate key be non-empty. -/
def tieredResolveSpec (runtime : Str)
    (customMappings : Option (List (Str × List Str))) : List Str :=
  match effTable customMappings runtime with
  | some exts => exts
  | none =>
      match effTable customMappings (runtime.takeWhile (fun c => c ≠ '.')) with
      | some exts => exts
      | none =>
          match effTable customMappings
              (stripTrailingDigits (runtime.takeWhile (fun c => c ≠ '.'))) with
          | some exts => exts
          | none => DEFAULT_FILE_EXTENSIONS

/-- Tiered resolution as the specification words it, amended with the
source's guards: tiers 2 and 3 apply only when their candidate key is
non-empty. -/
def tieredResolveGuarded (runtime : Str)
    (customMappings : Option (List (Str × List Str))) : List Str :=
  match effTable customMappings runtime with
  | some exts => exts
  | none =>
      let base := runtime.takeWhile (fun c => c ≠ '.')
      if base = [] then DEFAULT_FILE_EXTENSIONS
      else
        match effTable customMappings base with
        | some exts => exts
        | none =>
            let family := stripTrailingDigits base
            if family = [] then DEFAULT_FILE_EXTENSIONS
            else
              match effTable customMappings family with
              | some exts => exts
              | none => DEFAULT_FILE_EXTENSIONS

/-- True when a path begins with the separator: `path.isAbsolute` for
POSIX paths. -/
def isAbsolutePath (p : Str) : Bool :=
  match p with
  | [] => false
  | c :: _ => c = '/'

/-- Modelled from Node's `path.resolve(root, p)` in the case used by the
source, where `root` is the absolute project root (`process.cwd()`) and
`p` is not absolute: the two are joined with a separator.  Normalization
of `.` and `..` segments is omitted; no claim depends on it. -/
def pathResolve (root p : Str) : Str :=
  root ++ '/' :: p

/-- Modelled from Node's `path.join(dir, f)` as used in the watch
callback: the two parts joined with a separator (normalization omitted;
no claim depends on it). -/
def pathJoin (dir f : Str) : Str :=
  dir ++ '/' :: f

/-- Basename of a path: the part after the last separator. -/
def basenameOf (p : Str) : Str :=
  (p.reverse.takeWhile (fun c => c ≠ '/')).reverse

/-- Modelled from Node's `path.extname`: the suffix of the basename from
its last `.` on, or empty when the basename has no `.` or only a
leading one. -/
def extnameOf (p : Str) : Str :=
  let b := basenameOf p
  let afterDot := b.reverse.takeWhile (fun c => c ≠ '.')
  if afterDot.length + 2 ≤ b.length then '.' :: afterDot.reverse else []

/-- Lowercasing of a string, `toLowerCase` on ASCII. -/
def lowerStr (s : Str) : Str :=
  s.map Char.toLower

/-- One entry of `hotReloading.lambdaPaths` (types.ts): the raw,
externally supplied watch target configuration. -/
structure WatchTargetConfig where
  functionName : Str
  localPath : Str
  handler : Str
  runtime : Str
  fileExtensions : Option (List Str)
deriving DecidableEq

/-- The `hotReloading` block of the plugin configuration (types.ts).
The `defaultFileExtensions` field of the source type is never read by
the watcher code and is omitted. -/
structure HotReloadingConfig where
  enabled : Bool
  watchInterval : Option Nat
  lambdaPaths : Option (List WatchTargetConfig)
  runtimeFileExtensions : Option (List (Str × List Str))
deriving DecidableEq

/-- The plugin configuration as the watcher consumes it (types.ts);
fields not read by the watcher (autoStart, environment, waitForReady,
stopOnCleanup, debug) are omitted. -/
structure LocalStackConfig where
  hotReloading : Option HotReloadingConfig
deriving DecidableEq

/-- Default debounce interval for file change detection (milliseconds). -/
def DEFAULT_WATCH_INTERVAL_MS : Nat := 700

/-- Truthiness of `config.hotReloading?.enabled`. -/
def hotReloadEnabled (cfg : LocalStackConfig) : Bool :=
  (cfg.hotReloading.map (fun hr => hr.enabled)).getD false

/-- The list `config.hotReloading.lambdaPaths || []`. -/
def lambdaPathsOf (cfg : LocalStackConfig) : List WatchTargetConfig :=
  (cfg.hotReloading.bind (fun hr => hr.lambdaPaths)).getD []

/-- The debounce interval selected by `handleFileChange`:
`config.hotReloading?.watchInterval || DEFAULT_WATCH_INTERVAL_MS`, a
truthiness-based fallback under which a configured 0 (like an absent
value) yields the default. -/
def effInterval (cfg : LocalStackConfig) : Nat :=
  match cfg.hotReloading.bind (fun hr => hr.watchInterval) with
  | some n => if n = 0 then DEFAULT_WATCH_INTERVAL_MS else n
  | none => DEFAULT_WATCH_INTERVAL_MS

/-- The filesystem as the watcher observes it: `fs.existsSync` and
`fs.statSync(...).isDirectory()`. -/
structure FsModel where
  existsSync : Str → Bool
  isDirectory : Str → Bool

/-- The resolved per-target record built in `startWatching` (the
`resolvedConfig` object) and captured by each watch callback closure. -/
structure ResolvedLambdaConfig where
  functionName : Str
  localPath : Str
  handler : Str
  runtime : Str
  fileExtensions : List Str
deriving DecidableEq

/-- One event emitted on the bus under
`localstack:hot-reload:code-updated`. -/
structure Notification where
  functionName : Str
  localPath : Str
  changedFile : Str
  handler : Str
  runtime : Str
  timestamp : Nat
deriving DecidableEq

/-- One native watch handle returned by `fs.watch`, identified by a
fresh id and carrying the closure's captured target data. -/
structure OpenWatch where
  id : Nat
  cfg : ResolvedLambdaConfig
deriving DecidableEq

/-- The watcher's state: the `watchers` map (localPath → handle), the
`lastModified` debounce map, the `isWatching` flag, plus the modelled
environment of the instance — the set of native handles created by
`fs.watch` and not yet closed (with a fresh-id counter), and the log of
events emitted on the bus. -/
structure WatcherState where
  watchers : List (Str × Nat)
  lastModified : List (Str × Nat)
  isWatching : Bool
  openHandles : List OpenWatch
  nextHandleId : Nat
  emitted : List Notification
deriving DecidableEq

/-- The state of a freshly constructed `HotReloadWatcher`. -/
def initialState : WatcherState :=
  { watchers := [], lastModified := [], isWatching := false,
    openHandles := [], nextHandleId := 0, emitted := [] }

/-- Insert-or-update on an association list: `Map.set`. -/
def mapSet {β : Type} (k : Str) (v : β) : List (Str × β) → List (Str × β)
  | [] => [(k, v)]
  | (k', v') :: rest =>
      if k = k' then (k, v) :: rest else (k', v') :: mapSet k v rest

/-- The method `handleFileChange`: reads the debounce clock for the
watched path (`lastModified.get(localPath) || 0`), suppresses the event
when it falls inside the interval, and otherwise advances the clock and
emits one notification carrying the target metadata and the time. -/
def handleFileChange (cfg : LocalStackConfig) (now : Nat)
    (functionName localPath changedFile handler runtime : Str)
    (st : WatcherState) : WatcherState :=
  let lastMod := (alookup localPath st.lastModified).getD 0
  let interval := effInterval cfg
  if now - lastMod < interval then st
  else
    { st with
      lastModified := mapSet localPath now st.lastModified,
      emitted := st.emitted ++
        [{ functionName := functionName, localPath := localPath,
           changedFile := changedFile, handler := handler,
           runtime := runtime, timestamp := now }] }

/-- The callback closure passed to `fs.watch` for one registered target:
ignores events without a file name, joins the full path, lowercases the
extension, filters it against the captured extension list, then defers
to `handleFileChange`. -/
def watchCallback (cfg : LocalStackConfig) (c : ResolvedLambdaConfig)
    (now : Nat) (filename : Str) (st : WatcherState) : WatcherState :=
  if filename = [] then st
  else
    let fullPath := pathJoin c.localPath filename
    let ext := lowerStr (extnameOf filename)
    if ext ∈ c.fileExtensions then
      handleFileChange cfg now c.functionName c.localPath fullPath
        c.handler c.runtime st
    else st

/-- The method `watchLambdaPath`: skips a path that does not exist or is
not a directory; otherwise initializes the debounce clock, creates a new
native watch via `fs.watch` (a fresh handle — the source never checks
for an existing entry), and stores it in the `watchers` map, displacing
any previous handle for the same path without closing it. -/
def watchLambdaPath (fs : FsModel) (now : Nat) (st : WatcherState)
    (c : ResolvedLambdaConfig) : WatcherState :=
  if fs.existsSync c.localPath = false then st
  else if fs.isDirectory c.localPath = false then st
  else
    { st with
      lastModified := mapSet c.localPath now st.lastModified,
      openHandles := st.openHandles ++ [{ id := st.nextHandleId, cfg := c }],
      watchers := mapSet c.localPath st.nextHandleId st.watchers,
      nextHandleId := st.nextHandleId + 1 }

/-- The per-target resolution block in `startWatching` (lines 47–67):
expands placeholders in the path, resolves it against the project root
when not absolute, expands function name and handler, and takes the
config's explicit extension list when present (`lambdaPath.fileExtensions
|| ...`; an explicit empty list is truthy in the source and is kept),
otherwise resolves extensions from the unexpanded runtime string. -/
def resolveLambdaPath (env : Env) (cfg : LocalStackConfig)
    (projectRoot : Str) (lp : WatchTargetConfig) : ResolvedLambdaConfig :=
  let expandedPath := expandEnvironmentVariables env lp.localPath
  let fileExtensions :=
    match lp.fileExtensions with
    | some exts => exts
    | none =>
        getFileExtensionsForRuntime lp.runtime
          (cfg.hotReloading.bind (fun hr => hr.runtimeFileExtensions))
  { functionName := expandEnvironmentVariables env lp.functionName,
    localPath :=
      if isAbsolutePath expandedPath then expandedPath
      else pathResolve projectRoot expandedPath,
    handler := expandEnvironmentVariables env lp.handler,
    runtime := lp.runtime,
    fileExtensions := fileExtensions }

/-- The method `startWatching`: returns unchanged when hot reloading is
not enabled or the watcher is already watching, or when no lambda paths
are configured; otherwise registers each resolved path in order and then
sets the watching flag — regardless of how many paths actually existed.
Registration time is modelled as a single instant `now`. -/
def startWatching (env : Env) (fs : FsModel) (projectRoot : Str)
    (now : Nat) (cfg : LocalStackConfig) (st : WatcherState) : WatcherState :=
  if hotReloadEnabled cfg = false ∨ st.isWatching then st
  else
    let lambdaPaths := lambdaPathsOf cfg
    if lambdaPaths = [] then st
    else
      let st' := lambdaPaths.foldl
        (fun s lp => watchLambdaPath fs now s (resolveLambdaPath env cfg projectRoot lp)) st
      { st' with isWatching := true }

/-- The method `stopWatching`: returns unchanged when not watching;
otherwise closes every handle referenced by the `watchers` map, clears
both maps, and lowers the flag.  A handle displaced from the map by a
duplicate-path registration is not referenced and stays open. -/
def stopWatching (st : WatcherState) : WatcherState :=
  if st.isWatching = false then st
  else
    { st with
      openHandles := st.openHandles.filter
        (fun h => ((st.watchers.map Prod.snd).contains h.id) = false),
      watchers := [],
      lastModified := [],
      isWatching := false }

/-- Modelled from the native watch layer: a filesystem change under a
watched directory is delivered, in creation order, to the callback of
every open native watch registered on that directory. -/
def fsEvent (cfg : LocalStackConfig) (dirPath filename : Str) (now : Nat)
    (st : WatcherState) : WatcherState :=
  st.openHandles.foldl
    (fun s h => if h.cfg.localPath = dirPath then watchCallback cfg h.cfg now filename s else s)
    st

/-- The outcome of one health-check attempt, as `isHealthy` observes it:
a response with a status code, a network error from the transport, or a
hit of the per-attempt timeout (the aborted request). -/
inductive FetchOutcome where
  | response (status : Nat)
  | networkError
  | timedOut
deriving DecidableEq

/-- The method `LocalStackCLI.isHealthy`: true exactly on `res.ok`, a
2xx status; a network error and an aborted (timed-out) request are both
caught and mapped to false, so no transport exception escapes. -/
def isHealthy : FetchOutcome → Bool
  | FetchOutcome.response s => 200 ≤ s && s < 300
  | FetchOutcome.networkError => false
  | FetchOutcome.timedOut => false

/-- Result of the readiness loop: normal return, or the thrown
`LocalStack startup timeout` error. -/
inductive WaitResult where
  | ready
  | startupTimeout
deriving DecidableEq

/-- The retry loop of `waitForReady`, from attempt index `i` with a
given number of remaining attempts; returns the number of health checks
performed and the outcome.  A healthy check returns immediately; an
unhealthy one sleeps and retries. -/
def waitLoop (checks : Nat → FetchOutcome) (i : Nat) : Nat → Nat × WaitResult
  | 0 => (0, WaitResult.startupTimeout)
  | remaining + 1 =>
      if isHealthy (checks i) then (1, WaitResult.ready)
      else
        let r := waitLoop checks (i + 1) remaining
        (r.1 + 1, r.2)

/-- The method `LocalStackCLI.waitForReady` over the sequence of
per-attempt fetch outcomes: up to `maxAttempts` health checks. -/
def waitForReady (checks : Nat → FetchOutcome) (maxAttempts : Nat) :
    Nat × WaitResult :=
  waitLoop checks 0 maxAttempts

/-- The empty process environment, for concrete scenarios. -/
def env0 : Env := fun _ => none

/-- An environment binding only the name `A` to the value `v`. -/
def envA : Env := fun nm => if nm = ['A'] then some ['v'] else none

/-- A filesystem with a single directory `/p`. -/
def fsP : FsModel :=
  { existsSync := fun p => decide (p = ['/', 'p']),
    isDirectory := fun p => decide (p = ['/', 'p']) }

/-- A filesystem on which no path exists. -/
def fsNone : FsModel :=
  { existsSync := fun _ => false, isDirectory := fun _ => false }

/-- A first watch target declaring the directory `/p`. -/
def lpA : WatchTargetConfig :=
  { functionName := ['f', '1'], localPath := ['/', 'p'], handler := ['h'],
    runtime := ['p', 'y', 't', 'h', 'o', 'n'], fileExtensions := none }

/-- A second watch target declaring the same directory `/p`. -/
def lpB : WatchTargetConfig :=
  { functionName := ['f', '2'], localPath := ['/', 'p'], handler := ['h'],
    runtime := ['p', 'y', 't', 'h', 'o', 'n'], fileExtensions := none }

/-- A hot-reload configuration whose two targets resolve to the same
localPath `/p`. -/
def cfgDup : LocalStackConfig :=
  { hotReloading := some
      { enabled := true, watchInterval := none,
        lambdaPaths := some [lpA, lpB], runtimeFileExtensions := none } }

/-- The watcher state reached by `startWatching` from the initial state
under `cfgDup`, on the filesystem `fsP`, at time 5. -/
def stDup : WatcherState :=
  startWatching env0 fsP ['/', 'r'] 5 cfgDup initialState

/-- A hot-reload configuration with one target whose path exists on no
filesystem in the scenario. -/
def cfgGhost : LocalStackConfig :=
  { hotReloading := some
      { enabled := true, watchInterval := none,
        lambdaPaths := some [lpA], runtimeFileExtensions := none } }

/-- A watch target carrying an explicitly empty extension list. -/
def lpEmptyExts : WatchTargetConfig :=
  { functionName := ['f'], localPath := ['/', 'p'], handler := ['h'],
    runtime := ['p', 'y', 't', 'h', 'o', 'n'], fileExtensions := some [] }

/-- A configuration with hot reloading enabled and `watchInterval`
explicitly set to 0. -/
def cfgZero : LocalStackConfig :=
  { hotReloading := some
      { enabled := true, watchInterval := some 0,
        lambdaPaths := none, runtimeFileExtensions := none } }

/-- A burst of change events for one watched path and one target:
`handleFileChange` applied in sequence to each (changed file, time)
pair, as the watch callbacks would do. -/
def runBurst (cfg : LocalStackConfig) (fn p hd rt : Str)
    (evs : List (Str × Nat)) (st : WatcherState) : WatcherState :=
  evs.foldl (fun s e => handleFileChange cfg e.2 fn p e.1 hd rt s) st

/-- Watcher states reachable from the initial state by any sequence of
`startWatching` and `stopWatching` calls with arbitrary parameters. -/
inductive ReachableState : WatcherState → Prop where
  | init : ReachableState initialState
  | start (env : Env) (fs : FsModel) (projectRoot : Str) (now : Nat)
      (cfg : LocalStackConfig) {st : WatcherState} :
      ReachableState st →
      ReachableState (startWatching env fs projectRoot now cfg st)
  | stop {st : WatcherState} :
      ReachableState st → ReachableState (stopWatching st)

theorem splitHeadDot_eq_takeWhile (s : Str) :
    splitHeadDot s = s.takeWhile (fun c => c ≠ '.') := by
  induction s with
  | nil => rfl
  | cons c cs ih =>
      by_cases h : c = '.'
      · simp [splitHeadDot, List.takeWhile, h]
      · simp [splitHeadDot, List.takeWhile, h, ih]

theorem splitAtRBrace_eq :
    ∀ (l nm rest : Str), splitAtRBrace l = some (nm, rest) →
      l = nm ++ '}' :: rest := by
  intro l
  induction l with
  | nil => intro nm rest h; simp [splitAtRBrace] at h
  | cons c cs ih =>
      intro nm rest h
      by_cases hc : c = '}'
      · rw [splitAtRBrace, if_pos hc] at h
        have h' : ([] : Str) = nm ∧ cs = rest := by
          simpa [Prod.ext_iff] using h
        obtain ⟨h1, h2⟩ := h'
        subst hc
        rw [← h1, ← h2]
        rfl
      · rw [splitAtRBrace, if_neg hc] at h
        cases hs : splitAtRBrace cs with
        | none => rw [hs] at h; simp at h
        | some p =>
            rw [hs] at h
            have h' : c :: p.1 = nm ∧ p.2 = rest := by
              simpa [Prod.ext_iff] using h
            obtain ⟨h1, h2⟩ := h'
            have hcs := ih p.1 p.2 (by rw [hs])
            rw [← h1, ← h2, hcs]
            rfl

theorem splitLast_eq :
    ∀ (l init : Str) (lc : Char), splitLast l = some (init, lc) →
      l = init ++ [lc] := by
  intro l
  induction l with
  | nil => intro init lc h; simp [splitLast] at h
  | cons c cs ih =>
      intro init lc h
      rw [splitLast] at h
      cases hs : splitLast cs with
      | none =>
          rw [hs] at h
          have h' : ([] : Str) = init ∧ c = lc := by
            simpa [Prod.ext_iff] using h
          obtain ⟨h1, h2⟩ := h'
          have hcs : cs = [] := by
            cases cs with
            | nil => rfl
            | cons c2 cs2 =>
                rw [splitLast] at hs
                cases hs2 : splitLast cs2 with
                | none => rw [hs2] at hs; simp at hs
                | some q => rw [hs2] at hs; simp at hs
          rw [← h1, ← h2, hcs]
          rfl
      | some p =>
          rw [hs] at h
          have h' : c :: p.1 = init ∧ p.2 = lc := by
            simpa [Prod.ext_iff] using h
          obtain ⟨h1, h2⟩ := h'
          have hcs := ih p.1 p.2 (by rw [hs])
          rw [← h1, ← h2, hcs]
          rfl

theorem takeIdent_append :
    ∀ l : Str, (takeIdent l).1 ++ (takeIdent l).2 = l := by
  intro l
  induction l with
  | nil => rfl
  | cons c cs ih =>
      simp only [takeIdent]
      by_cases h : isIdentChar c
      · simp [h, ih]
      · simp [h]

theorem expandBraced_refs_none (env : Env) :
    ∀ (fuel : Nat) (s : Str),
      (∀ nm ∈ bracedRefs fuel s, env nm = none) →
      expandBraced env fuel s = s := by
  intro fuel
  induction fuel with
  | zero => intro s _; rfl
  | succ f ih =>
      intro s h
      match s with
      | [] => rfl
      | [c] => rfl
      | c :: c2 :: rest =>
          simp only [expandBraced, bracedRefs] at h ⊢
          by_cases hcc : c = '$' ∧ c2 = '{'
          · rw [if_pos hcc] at h ⊢
            cases hs : splitAtRBrace rest with
            | none =>
                rw [hs] at h
                have h' : ∀ nm ∈ bracedRefs f (c2 :: rest), env nm = none := h
                show c :: expandBraced env f (c2 :: rest) = c :: c2 :: rest
                rw [ih (c2 :: rest) h']
            | some p =>
                obtain ⟨nm, rest'⟩ := p
                rw [hs] at h
                by_cases hnm : nm = []
                · subst hnm
                  have h' : ∀ x ∈ bracedRefs f (c2 :: rest), env x = none :=
                    fun x hx => h x hx
                  show c :: expandBraced env f (c2 :: rest) = c :: c2 :: rest
                  rw [ih (c2 :: rest) h']
                · have h0 : ∀ x ∈ nm :: bracedRefs f rest', env x = none := by
                    intro x hx
                    refine h x ?_
                    show x ∈ (if nm = [] then bracedRefs f (c2 :: rest)
                              else nm :: bracedRefs f rest')
                    rw [if_neg hnm]
                    exact hx
                  have hn : env nm = none := h0 nm (List.mem_cons_self nm _)
                  have ht : ∀ x ∈ bracedRefs f rest', env x = none :=
                    fun x hx => h0 x (List.mem_cons_of_mem _ hx)
                  show (if nm = [] then c :: expandBraced env f (c2 :: rest)
                        else match env nm with
                             | some v => v ++ expandBraced env f rest'
                             | none => c :: c2 :: (nm ++ '}' :: expandBraced env f rest'))
                      = c :: c2 :: rest
                  rw [if_neg hnm, hn, ih rest' ht, splitAtRBrace_eq rest nm rest' hs]
          · rw [if_neg hcc] at h ⊢
            rw [ih (c2 :: rest) h]

theorem expandBare_refs_none (env : Env) :
    ∀ (fuel : Nat) (s : Str),
      (∀ nm ∈ bareRefs fuel s, env nm = none) →
      expandBare env fuel s = s := by
  intro fuel
  induction fuel with
  | zero => intro s _; rfl
  | succ f ih =>
      intro s h
      match s with
      | [] => rfl
      | [c] => rfl
      | c :: c1 :: cs' =>
          simp only [expandBare, bareRefs] at h ⊢
          by_cases hci : c = '$' ∧ isIdentStart c1
          · rw [if_pos hci] at h ⊢
            have happ := takeIdent_append (c1 :: cs')
            by_cases hbr : (takeIdent (c1 :: cs')).2.head? = some '{'
            · rw [if_pos hbr] at h ⊢
              cases hs : splitLast (takeIdent (c1 :: cs')).1 with
              | none =>
                  rw [hs] at h
                  show c :: expandBare env f (c1 :: cs') = c :: c1 :: cs'
                  rw [ih (c1 :: cs') h]
              | some p =>
                  obtain ⟨nm, lastc⟩ := p
                  rw [hs] at h
                  by_cases hnm : nm = []
                  · subst hnm
                    show c :: expandBare env f (c1 :: cs') = c :: c1 :: cs'
                    rw [ih (c1 :: cs') (fun x hx => h x hx)]
                  · have h0 : ∀ x ∈ nm :: bareRefs f (lastc :: (takeIdent (c1 :: cs')).2),
                        env x = none := by
                      intro x hx
                      refine h x ?_
                      show x ∈ (if nm = [] then bareRefs f (c1 :: cs')
                                else nm :: bareRefs f (lastc :: (takeIdent (c1 :: cs')).2))
                      rw [if_neg hnm]
                      exact hx
                    have hn : env nm = none := h0 nm (List.mem_cons_self nm _)
                    have ht : ∀ x ∈ bareRefs f (lastc :: (takeIdent (c1 :: cs')).2),
                        env x = none :=
                      fun x hx => h0 x (List.mem_cons_of_mem _ hx)
                    show (if nm = [] then c :: expandBare env f (c1 :: cs')
                          else match env nm with
                               | some v =>
                                   v ++ expandBare env f (lastc :: (takeIdent (c1 :: cs')).2)
                               | none =>
                                   c :: (nm ++ expandBare env f (lastc :: (takeIdent (c1 :: cs')).2)))
                        = c :: c1 :: cs'
                    rw [if_neg hnm, hn, ih _ ht]
                    have hrun := splitLast_eq _ nm lastc hs
                    have hjoin : nm ++ lastc :: (takeIdent (c1 :: cs')).2 = c1 :: cs' := by
                      calc nm ++ lastc :: (takeIdent (c1 :: cs')).2
                          = (nm ++ [lastc]) ++ (takeIdent (c1 :: cs')).2 := by simp
                        _ = (takeIdent (c1 :: cs')).1 ++ (takeIdent (c1 :: cs')).2 := by
                              rw [hrun]
                        _ = c1 :: cs' := happ
                    rw [hjoin]
            · rw [if_neg hbr] at h ⊢
              have hn : env (takeIdent (c1 :: cs')).1 = none :=
                h _ (List.mem_cons_self _ _)
              have ht : ∀ x ∈ bareRefs f (takeIdent (c1 :: cs')).2, env x = none :=
                fun x hx => h x (List.mem_cons_of_mem _ hx)
              rw [hn, ih _ ht]
              show c :: ((takeIdent (c1 :: cs')).1 ++ (takeIdent (c1 :: cs')).2)
                  = c :: c1 :: cs'
              rw [happ]
          · rw [if_neg hci] at h ⊢
            rw [ih (c1 :: cs') h]

theorem waitLoop_all_unhealthy (checks : Nat → FetchOutcome) :
    ∀ (n i : Nat), (∀ j, j < n → isHealthy (checks (i + j)) = false) →
      waitLoop checks i n = (n, WaitResult.startupTimeout) := by
  intro n
  induction n with
  | zero => intro i _; rfl
  | succ m ih =>
      intro i h
      have h0 : isHealthy (checks i) = false := by
        have := h 0 (Nat.succ_pos m); simpa using this
      have hrec : ∀ j, j < m → isHealthy (checks (i + 1 + j)) = false := by
        intro j hj
        have := h (j + 1) (Nat.succ_lt_succ hj)
        rw [show i + 1 + j = i + (j + 1) by omega]
        exact this
      rw [waitLoop, if_neg (by simp [h0])]
      show ((waitLoop checks (i + 1) m).1 + 1, (waitLoop checks (i + 1) m).2)
          = (m + 1, WaitResult.startupTimeout)
      rw [ih (i + 1) hrec]

theorem waitLoop_first_healthy (checks : Nat → FetchOutcome) :
    ∀ (n k i : Nat), k < n → isHealthy (checks (i + k)) = true →
      (∀ j, j < k → isHealthy (checks (i + j)) = false) →
      waitLoop checks i n = (k + 1, WaitResult.ready) := by
  intro n
  induction n with
  | zero => intro k i hk _ _; exact absurd hk (Nat.not_lt_zero k)
  | succ m ih =>
      intro k i hk hh hmin
      cases k with
      | zero =>
          have h0 : isHealthy (checks i) = true := by simpa using hh
          rw [waitLoop, if_pos h0]
      | succ k' =>
          have h0 : isHealthy (checks i) = false := by
            have := hmin 0 (Nat.succ_pos k'); simpa using this
          have hh' : isHealthy (checks (i + 1 + k')) = true := by
            rw [show i + 1 + k' = i + (k' + 1) by omega]; exact hh
          have hmin' : ∀ j, j < k' → isHealthy (checks (i + 1 + j)) = false := by
            intro j hj
            rw [show i + 1 + j = i + (j + 1) by omega]
            exact hmin (j + 1) (Nat.succ_lt_succ hj)
          rw [waitLoop, if_neg (by simp [h0])]
          show ((waitLoop checks (i + 1) m).1 + 1, (waitLoop checks (i + 1) m).2)
              = (k' + 1 + 1, WaitResult.ready)
          rw [ih k' (i + 1) (Nat.lt_of_succ_lt_succ hk) hh' hmin']

/-- C4: `waitForReady` returns success immediately after the first
healthy check (performing exactly k+1 checks when attempt k is the first
healthy one), performs exactly `maxAttempts` checks and signals the
startup-timeout failure when none is healthy, and `isHealthy` maps a
network error, a timed-out request, and any non-2xx status uniformly to
the boolean false instead of propagating a transport exception. -/
theorem C4_waitForReady_contract (checks : Nat → FetchOutcome)
    (maxAttempts k : Nat) :
    ((∀ j, j < maxAttempts → isHealthy (checks j) = false) →
        waitForReady checks maxAttempts = (maxAttempts, WaitResult.startupTimeout)) ∧
    (k < maxAttempts → isHealthy (checks k) = true →
        (∀ j, j < k → isHealthy (checks j) = false) →
        waitForReady checks maxAttempts = (k + 1, WaitResult.ready)) ∧
    isHealthy FetchOutcome.networkError = false ∧
    isHealthy FetchOutcome.timedOut = false ∧
    (∀ s, s < 200 ∨ 300 ≤ s → isHealthy (FetchOutcome.response s) = false) := by
  refine ⟨?_, ?_, rfl, rfl, ?_⟩
  · intro h
    exact waitLoop_all_unhealthy checks maxAttempts 0
      (fun j hj => by simpa using h j hj)
  · intro hk hh hmin
    exact waitLoop_first_healthy checks maxAttempts k 0 hk (by simpa using hh)
      (fun j hj => by simpa using hmin j hj)
  · intro s hs
    simp only [isHealthy, Bool.and_eq_false_imp, decide_eq_true_eq,
      decide_eq_false_iff_not]
    omega

/-- Witness for C4: outcomes that are network errors on attempts 0 and 1
and a 200 response on attempt 2 make `waitForReady` succeed after
exactly 3 checks. -/
theorem C4_waitForReady_contract_witness :
    waitForReady
        (fun i => if i < 2 then FetchOutcome.networkError else FetchOutcome.response 200) 3
      = (3, WaitResult.ready) :=
  (C4_waitForReady_contract
      (fun i => if i < 2 then FetchOutcome.networkError else FetchOutcome.response 200) 3 2).2.1
    (by decide) (by decide) (by decide)

theorem expandBraced_renderToks (env : Env) :
    ∀ (fuel : Nat) (s : Str),
      expandBraced env fuel s
        = renderToks (renderBracedTok env) (bracedToks fuel s) := by
  intro fuel
  induction fuel with
  | zero =>
      intro s
      show s = s ++ renderToks (renderBracedTok env) []
      rw [renderToks, List.append_nil]
  | succ f ih =>
      intro s
      match s with
      | [] => rfl
      | [c] =>
          show [c] = [c] ++ renderToks (renderBracedTok env) []
          rw [renderToks, List.append_nil]
      | c :: c2 :: rest =>
          simp only [expandBraced, bracedToks]
          by_cases hcc : c = '$' ∧ c2 = '{'
          · rw [if_pos hcc]
            rw [if_pos hcc]
            cases hs : splitAtRBrace rest with
            | none =>
                rw [ih (c2 :: rest)]
                rfl
            | some p =>
                obtain ⟨nm, rest'⟩ := p
                by_cases hnm : nm = []
                · subst hnm
                  rw [ih (c2 :: rest)]
                  rfl
                · obtain ⟨hc, hc2⟩ := hcc
                  subst hc
                  subst hc2
                  show (if nm = [] then '$' :: expandBraced env f ('{' :: rest)
                        else match env nm with
                             | some v => v ++ expandBraced env f rest'
                             | none => '$' :: '{' :: (nm ++ '}' :: expandBraced env f rest'))
                      = renderToks (renderBracedTok env)
                          (if nm = [] then RefTok.lit ['$'] :: bracedToks f ('{' :: rest)
                           else RefTok.ref nm :: bracedToks f rest')
                  rw [if_neg hnm]
                  rw [if_neg hnm]
                  show (match env nm with
                        | some v => v ++ expandBraced env f rest'
                        | none => '$' :: '{' :: (nm ++ '}' :: expandBraced env f rest'))
                      = (match env nm with
                         | some v => v
                         | none => '$' :: '{' :: (nm ++ ['}']))
                        ++ renderToks (renderBracedTok env) (bracedToks f rest')
                  cases he : env nm with
                  | some v =>
                      rw [ih rest']
                  | none =>
                      rw [ih rest']
                      simp
          · rw [if_neg hcc]
            rw [if_neg hcc]
            rw [ih (c2 :: rest)]
            rfl

theorem expandBare_renderToks (env : Env) :
    ∀ (fuel : Nat) (s : Str),
      expandBare env fuel s
        = renderToks (renderBareTok env) (bareToks fuel s) := by
  intro fuel
  induction fuel with
  | zero =>
      intro s
      show s = s ++ renderToks (renderBareTok env) []
      rw [renderToks, List.append_nil]
  | succ f ih =>
      intro s
      match s with
      | [] => rfl
      | [c] =>
          show [c] = [c] ++ renderToks (renderBareTok env) []
          rw [renderToks, List.append_nil]
      | c :: c1 :: cs' =>
          simp only [expandBare, bareToks]
          by_cases hcc : c = '$' ∧ isIdentStart c1
          · obtain ⟨hc, hi⟩ := hcc
            subst hc
            have hcpos : ('$' : Char) = '$' ∧ isIdentStart c1 = true := ⟨rfl, hi⟩
            rw [if_pos hcpos]
            rw [if_pos hcpos]
            by_cases hbr : (takeIdent (c1 :: cs')).2.head? = some '{'
            · rw [if_pos hbr]
              rw [if_pos hbr]
              cases hs : splitLast (takeIdent (c1 :: cs')).1 with
              | none =>
                  rw [ih (c1 :: cs')]
                  rfl
              | some p =>
                  obtain ⟨nm, lastc⟩ := p
                  by_cases hnm : nm = []
                  · subst hnm
                    rw [ih (c1 :: cs')]
                    rfl
                  · show (if nm = [] then '$' :: expandBare env f (c1 :: cs')
                          else match env nm with
                               | some v =>
                                   v ++ expandBare env f (lastc :: (takeIdent (c1 :: cs')).2)
                               | none =>
                                   '$' :: (nm ++ expandBare env f (lastc :: (takeIdent (c1 :: cs')).2)))
                        = renderToks (renderBareTok env)
                            (if nm = [] then RefTok.lit ['$'] :: bareToks f (c1 :: cs')
                             else RefTok.ref nm :: bareToks f (lastc :: (takeIdent (c1 :: cs')).2))
                    rw [if_neg hnm]
                    rw [if_neg hnm]
                    show (match env nm with
                          | some v =>
                              v ++ expandBare env f (lastc :: (takeIdent (c1 :: cs')).2)
                          | none =>
                              '$' :: (nm ++ expandBare env f (lastc :: (takeIdent (c1 :: cs')).2)))
                        = (match env nm with
                           | some v => v
                           | none => '$' :: nm)
                          ++ renderToks (renderBareTok env)
                              (bareToks f (lastc :: (takeIdent (c1 :: cs')).2))
                    cases he : env nm with
                    | some v => rw [ih (lastc :: (takeIdent (c1 :: cs')).2)]
                    | none =>
                        rw [ih (lastc :: (takeIdent (c1 :: cs')).2)]
                        rfl
            · rw [if_neg hbr]
              rw [if_neg hbr]
              show (match env (takeIdent (c1 :: cs')).1 with
                    | some v => v ++ expandBare env f (takeIdent (c1 :: cs')).2
                    | none =>
                        '$' :: ((takeIdent (c1 :: cs')).1
                          ++ expandBare env f (takeIdent (c1 :: cs')).2))
                  = (match env (takeIdent (c1 :: cs')).1 with
                     | some v => v
                     | none => '$' :: (takeIdent (c1 :: cs')).1)
                    ++ renderToks (renderBareTok env) (bareToks f (takeIdent (c1 :: cs')).2)
              cases he : env (takeIdent (c1 :: cs')).1 with
              | some v => rw [ih (takeIdent (c1 :: cs')).2]
              | none =>
                  rw [ih (takeIdent (c1 :: cs')).2]
                  rfl
          · rw [if_neg hcc]
            rw [if_neg hcc]
            rw [ih (c1 :: cs')]
            rfl

/-- C8: for every input string and every environment binding — bound and
unbound names mixed freely — the output of each replacement pass is
exactly the concatenation of its scanned pieces, a decomposition whose
piece boundaries are independent of the environment: a literal piece
passes through unchanged, a reference whose name is bound is replaced by
its value, and a reference whose name is unbound is rendered unexpanded
and verbatim, its delimiters included, never as the empty string.  In
particular, a string all of whose braced and bare references are unbound
is returned exactly unchanged. -/
theorem C8_unbound_references_verbatim (env : Env) (s : Str) :
    (expandEnvironmentVariables env s
        = renderToks (renderBareTok env)
            (bareToks (expandBraced env s.length s).length
              (expandBraced env s.length s)) ∧
     expandBraced env s.length s
        = renderToks (renderBracedTok env) (bracedToks s.length s)) ∧
    (∀ nm, env nm = none →
        renderBracedTok env (RefTok.ref nm) = '$' :: '{' :: (nm ++ ['}']) ∧
        renderBareTok env (RefTok.ref nm) = '$' :: nm ∧
        renderBracedTok env (RefTok.ref nm) ≠ [] ∧
        renderBareTok env (RefTok.ref nm) ≠ []) ∧
    ((∀ nm ∈ bracedRefs s.length s, env nm = none) →
     (∀ nm ∈ bareRefs s.length s, env nm = none) →
     expandEnvironmentVariables env s = s) := by
  refine ⟨⟨?_, expandBraced_renderToks env s.length s⟩, ?_, ?_⟩
  · unfold expandEnvironmentVariables
    by_cases hs : s = []
    · rw [if_pos hs]
      subst hs
      rfl
    · rw [if_neg hs]
      exact expandBare_renderToks env (expandBraced env s.length s).length
        (expandBraced env s.length s)
  · intro nm hnone
    refine ⟨?_, ?_, ?_, ?_⟩
    · show (match env nm with
            | some v => v
            | none => '$' :: '{' :: (nm ++ ['}'])) = '$' :: '{' :: (nm ++ ['}'])
      rw [hnone]
    · show (match env nm with
            | some v => v
            | none => '$' :: nm) = '$' :: nm
      rw [hnone]
    · show (match env nm with
            | some v => v
            | none => '$' :: '{' :: (nm ++ ['}'])) ≠ []
      rw [hnone]
      simp
    · show (match env nm with
            | some v => v
            | none => '$' :: nm) ≠ []
      rw [hnone]
      simp
  · intro h1 h2
    unfold expandEnvironmentVariables
    by_cases hs : s = []
    · rw [if_pos hs]
    · rw [if_neg hs]
      show expandBare env (expandBraced env s.length s).length
          (expandBraced env s.length s) = s
      rw [expandBraced_refs_none env s.length s h1]
      exact expandBare_refs_none env s.length s h2

/-- Witness for C8 at mixed bindings: with A bound to v while X and Y
are unbound, the unbound braced reference renders verbatim with its
delimiters, the mixed input expands only its bound reference while both
unbound references survive verbatim, and an all-unbound string is
returned unchanged. -/
theorem C8_unbound_references_verbatim_witness :
    renderBracedTok envA (RefTok.ref ['X']) = ['$', '{', 'X', '}'] ∧
    expandEnvironmentVariables envA
        ['$', '{', 'A', '}', '$', '{', 'X', '}', '$', 'Y']
      = ['v', '$', '{', 'X', '}', '$', 'Y'] ∧
    expandEnvironmentVariables env0 ['$', '{', 'X', '}', '$', 'Y']
      = ['$', '{', 'X', '}', '$', 'Y'] :=
  ⟨((C8_unbound_references_verbatim envA
      ['$', '{', 'A', '}', '$', '{', 'X', '}', '$', 'Y']).2.1 ['X'] rfl).1,
   by decide,
   (C8_unbound_references_verbatim env0 ['$', '{', 'X', '}', '$', 'Y']).2.2
     (fun _ _ => rfl) (fun _ _ => rfl)⟩

/-- C9: with the environment binding A to v, expanding the string made of
a bare `A` reference immediately followed by a braced `A` reference
yields the braced occurrence expanded and the bare one untouched. -/
theorem C9_bare_form_before_brace_not_reexpanded :
    expandEnvironmentVariables envA ['$', 'A', '$', '{', 'A', '}']
      = ['$', 'A', 'v'] := by
  decide

/-- C10: with `watchInterval` configured as 0 (a falsy value), the
interval used by the change handler is the built-in default of 700 ms,
so a configured 0 does not disable debouncing: an event closer than
700 ms to the path's debounce clock is still suppressed. -/
theorem C10_zero_watchInterval_uses_default (cfg : LocalStackConfig)
    (h : cfg.hotReloading.bind (fun hr => hr.watchInterval) = some 0) :
    effInterval cfg = DEFAULT_WATCH_INTERVAL_MS ∧
    ∀ (now : Nat) (fn p chg hd rt : Str) (st : WatcherState),
      now - (alookup p st.lastModified).getD 0 < DEFAULT_WATCH_INTERVAL_MS →
      handleFileChange cfg now fn p chg hd rt st = st := by
  have hi : effInterval cfg = DEFAULT_WATCH_INTERVAL_MS := by
    rw [effInterval, h]
    rfl
  refine ⟨hi, ?_⟩
  intro now fn p chg hd rt st hlt
  simp only [handleFileChange, hi]
  rw [if_pos hlt]

/-- Witness for C10 at the concrete zero-interval configuration: the
effective interval is 700 and an event 100 ms after the clock origin is
suppressed. -/
theorem C10_zero_watchInterval_uses_default_witness :
    effInterval cfgZero = DEFAULT_WATCH_INTERVAL_MS ∧
    handleFileChange cfgZero 100 ['f'] ['/', 'p'] ['c'] ['h'] ['r'] initialState
      = initialState :=
  ⟨(C10_zero_watchInterval_uses_default cfgZero rfl).1,
   (C10_zero_watchInterval_uses_default cfgZero rfl).2 100 ['f'] ['/', 'p'] ['c'] ['h'] ['r']
     initialState (by decide)⟩

/-- C3 counterexample: with an override table binding the empty-string
key, the runtime `.x` resolves to the built-in default list in the
source (its base-version prefix is empty and the source skips tiers 2
and 3 for an empty candidate), while the claimed tier ordering without a
non-emptiness condition would return the override's set. -/
theorem C3_tier_guards_counterexample :
    getFileExtensionsForRuntime ['.', 'x'] (some [([], [['a']])])
      ≠ tieredResolveSpec ['.', 'x'] (some [([], [['a']])]) := by
  decide

/-- C3 amended: `getFileExtensionsForRuntime` follows the claimed tiered
algorithm over the effective table, except that tiers 2 and 3 apply
only when their candidate key (the prefix before the first dot, and
that prefix with trailing decimal digits stripped) is non-empty;
matching is case-sensitive list equality and the function is total. -/
theorem C3_tiered_resolution_amended (runtime : Str)
    (customMappings : Option (List (Str × List Str))) :
    getFileExtensionsForRuntime runtime customMappings
      = tieredResolveGuarded runtime customMappings := by
  unfold getFileExtensionsForRuntime tieredResolveGuarded
  rw [splitHeadDot_eq_takeWhile]


theorem alookup_some_mem {β : Type} (k : Str) (v : β) :
    ∀ l : List (Str × β), alookup k l = some v → (k, v) ∈ l := by
  intro l
  induction l with
  | nil => intro h; simp [alookup] at h
  | cons kv rest ih =>
      intro h
      obtain ⟨k', v'⟩ := kv
      rw [alookup] at h
      by_cases hk : k = k'
      · rw [if_pos hk] at h
        have hv : v' = v := by simpa using h
        rw [← hk, hv]
        exact List.mem_cons_self _ _
      · rw [if_neg hk] at h
        exact List.mem_cons_of_mem _ (ih h)

theorem defaults_values_ne_nil :
    ∀ kv ∈ DEFAULT_RUNTIME_FILE_EXTENSIONS, kv.2 ≠ [] := by decide

theorem gf_hit_exact {r : Str} {ov : Option (List (Str × List Str))}
    {exts : List Str} (h : effTable ov r = some exts) :
    getFileExtensionsForRuntime r ov = exts := by
  unfold getFileExtensionsForRuntime
  rw [h]

theorem gf_base_nil {r : Str} {ov : Option (List (Str × List Str))}
    (h : effTable ov r = none) (hb : splitHeadDot r = []) :
    getFileExtensionsForRuntime r ov = DEFAULT_FILE_EXTENSIONS := by
  unfold getFileExtensionsForRuntime
  rw [h]
  show (if splitHeadDot r = [] then DEFAULT_FILE_EXTENSIONS else _)
      = DEFAULT_FILE_EXTENSIONS
  rw [if_pos hb]

theorem gf_hit_base {r : Str} {ov : Option (List (Str × List Str))}
    {exts : List Str} (h : effTable ov r = none) (hb : splitHeadDot r ≠ [])
    (h2 : effTable ov (splitHeadDot r) = some exts) :
    getFileExtensionsForRuntime r ov = exts := by
  unfold getFileExtensionsForRuntime
  rw [h]
  show (if splitHeadDot r = [] then DEFAULT_FILE_EXTENSIONS else _) = exts
  rw [if_neg hb, h2]

theorem gf_family_nil {r : Str} {ov : Option (List (Str × List Str))}
    (h : effTable ov r = none) (hb : splitHeadDot r ≠ [])
    (h2 : effTable ov (splitHeadDot r) = none)
    (hf : stripTrailingDigits (splitHeadDot r) = []) :
    getFileExtensionsForRuntime r ov = DEFAULT_FILE_EXTENSIONS := by
  unfold getFileExtensionsForRuntime
  rw [h]
  show (if splitHeadDot r = [] then DEFAULT_FILE_EXTENSIONS else _)
      = DEFAULT_FILE_EXTENSIONS
  rw [if_neg hb, h2]
  show (if stripTrailingDigits (splitHeadDot r) = []
        then DEFAULT_FILE_EXTENSIONS else _) = DEFAULT_FILE_EXTENSIONS
  rw [if_pos hf]

theorem gf_hit_family {r : Str} {ov : Option (List (Str × List Str))}
    {exts : List Str} (h : effTable ov r = none) (hb : splitHeadDot r ≠ [])
    (h2 : effTable ov (splitHeadDot r) = none)
    (hf : stripTrailingDigits (splitHeadDot r) ≠ [])
    (h3 : effTable ov (stripTrailingDigits (splitHeadDot r)) = some exts) :
    getFileExtensionsForRuntime r ov = exts := by
  unfold getFileExtensionsForRuntime
  rw [h]
  show (if splitHeadDot r = [] then DEFAULT_FILE_EXTENSIONS else _) = exts
  rw [if_neg hb, h2]
  show (if stripTrailingDigits (splitHeadDot r) = []
        then DEFAULT_FILE_EXTENSIONS else _) = exts
  rw [if_neg hf, h3]

theorem gf_default {r : Str} {ov : Option (List (Str × List Str))}
    (h : effTable ov r = none) (hb : splitHeadDot r ≠ [])
    (h2 : effTable ov (splitHeadDot r) = none)
    (hf : stripTrailingDigits (splitHeadDot r) ≠ [])
    (h3 : effTable ov (stripTrailingDigits (splitHeadDot r)) = none) :
    getFileExtensionsForRuntime r ov = DEFAULT_FILE_EXTENSIONS := by
  unfold getFileExtensionsForRuntime
  rw [h]
  show (if splitHeadDot r = [] then DEFAULT_FILE_EXTENSIONS else _)
      = DEFAULT_FILE_EXTENSIONS
  rw [if_neg hb, h2]
  show (if stripTrailingDigits (splitHeadDot r) = []
        then DEFAULT_FILE_EXTENSIONS else _) = DEFAULT_FILE_EXTENSIONS
  rw [if_neg hf, h3]

theorem getFileExtensionsForRuntime_cases (r : Str)
    (ov : Option (List (Str × List Str))) :
    (∃ k, effTable ov k = some (getFileExtensionsForRuntime r ov)) ∨
    getFileExtensionsForRuntime r ov = DEFAULT_FILE_EXTENSIONS := by
  cases h1 : effTable ov r with
  | some exts => exact Or.inl ⟨r, by rw [h1, gf_hit_exact h1]⟩
  | none =>
      by_cases hb : splitHeadDot r = []
      · exact Or.inr (gf_base_nil h1 hb)
      · cases h2 : effTable ov (splitHeadDot r) with
        | some exts => exact Or.inl ⟨splitHeadDot r, by rw [h2, gf_hit_base h1 hb h2]⟩
        | none =>
            by_cases hf : stripTrailingDigits (splitHeadDot r) = []
            · exact Or.inr (gf_family_nil h1 hb h2 hf)
            · cases h3 : effTable ov (stripTrailingDigits (splitHeadDot r)) with
              | some exts =>
                  exact Or.inl ⟨stripTrailingDigits (splitHeadDot r),
                    by rw [h3, gf_hit_family h1 hb h2 hf h3]⟩
              | none => exact Or.inr (gf_default h1 hb h2 hf h3)

theorem effTable_none_eq_default_lookup (k : Str) :
    effTable none k = alookup k DEFAULT_RUNTIME_FILE_EXTENSIONS := rfl

theorem getFileExtensionsForRuntime_no_override_ne_nil (r : Str) :
    getFileExtensionsForRuntime r none ≠ [] := by
  rcases getFileExtensionsForRuntime_cases r none with ⟨k, hk⟩ | hd
  · rw [effTable_none_eq_default_lookup] at hk
    intro hnil
    have hm := alookup_some_mem k _ DEFAULT_RUNTIME_FILE_EXTENSIONS hk
    have hne := defaults_values_ne_nil _ hm
    exact hne hnil
  · rw [hd]; decide

theorem isAbsolutePath_pathResolve (root p : Str)
    (h : isAbsolutePath root = true) :
    isAbsolutePath (pathResolve root p) = true := by
  cases root with
  | nil => simp [isAbsolutePath] at h
  | cons r rs => simpa [isAbsolutePath, pathResolve] using h

/-- C5 counterexample: a target whose configuration carries an
explicitly empty fileExtensions list keeps that empty list (an empty
array is truthy in the source, so no fallback applies), violating the
claimed non-emptiness of the derived target's extension set. -/
theorem C5_empty_explicit_extensions_counterexample :
    (resolveLambdaPath env0 cfgDup ['/', 'r'] lpEmptyExts).fileExtensions = [] := rfl

/-- C5 amended: the derived target's localPath is absolute whenever the
project root is; fileExtensions is the config's explicit list when
present — even when that list is empty — and otherwise the runtime
resolution of the unexpanded runtime string, which is non-empty at
least when no override table is configured. -/
theorem C5_resolved_target_amended (env : Env) (cfg : LocalStackConfig)
    (projectRoot : Str) (lp : WatchTargetConfig)
    (hroot : isAbsolutePath projectRoot = true) :
    isAbsolutePath (resolveLambdaPath env cfg projectRoot lp).localPath = true ∧
    (resolveLambdaPath env cfg projectRoot lp).fileExtensions
      = (match lp.fileExtensions with
         | some exts => exts
         | none => getFileExtensionsForRuntime lp.runtime
             (cfg.hotReloading.bind (fun hr => hr.runtimeFileExtensions))) ∧
    (lp.fileExtensions = none →
      cfg.hotReloading.bind (fun hr => hr.runtimeFileExtensions) = none →
      (resolveLambdaPath env cfg projectRoot lp).fileExtensions ≠ []) := by
  refine ⟨?_, rfl, ?_⟩
  · show isAbsolutePath
        (if isAbsolutePath (expandEnvironmentVariables env lp.localPath)
         then expandEnvironmentVariables env lp.localPath
         else pathResolve projectRoot (expandEnvironmentVariables env lp.localPath))
        = true
    by_cases habs : isAbsolutePath (expandEnvironmentVariables env lp.localPath) = true
    · rw [if_pos habs]; exact habs
    · rw [if_neg habs]
      exact isAbsolutePath_pathResolve projectRoot _ hroot
  · intro he ho
    show (match lp.fileExtensions with
          | some exts => exts
          | none => getFileExtensionsForRuntime lp.runtime
              (cfg.hotReloading.bind (fun hr => hr.runtimeFileExtensions))) ≠ []
    rw [he, ho]
    exact getFileExtensionsForRuntime_no_override_ne_nil lp.runtime

/-- Witness for C5 amended at a concrete target: the resolved path of
`lpA` under project root `/r` is absolute and its resolved extension
list is non-empty. -/
theorem C5_resolved_target_amended_witness :
    isAbsolutePath (resolveLambdaPath env0 cfgGhost ['/', 'r'] lpA).localPath = true ∧
    (resolveLambdaPath env0 cfgGhost ['/', 'r'] lpA).fileExtensions ≠ [] :=
  ⟨(C5_resolved_target_amended env0 cfgGhost ['/', 'r'] lpA rfl).1,
   (C5_resolved_target_amended env0 cfgGhost ['/', 'r'] lpA rfl).2.2 rfl rfl⟩

theorem startWatching_cases (env : Env) (fs : FsModel) (projectRoot : Str)
    (now : Nat) (cfg : LocalStackConfig) (st : WatcherState) :
    startWatching env fs projectRoot now cfg st = st ∨
    (startWatching env fs projectRoot now cfg st).isWatching = true := by
  unfold startWatching
  by_cases hc : hotReloadEnabled cfg = false ∨ st.isWatching = true
  · rw [if_pos hc]; exact Or.inl rfl
  · rw [if_neg hc]
    by_cases hp : lambdaPathsOf cfg = []
    · refine Or.inl ?_
      show (if lambdaPathsOf cfg = [] then st else _) = st
      rw [if_pos hp]
    · refine Or.inr ?_
      show (if lambdaPathsOf cfg = [] then st else _).isWatching = true
      rw [if_neg hp]

theorem stopWatching_isWatching_false (st : WatcherState) :
    (stopWatching st).isWatching = false := by
  unfold stopWatching
  by_cases hw : st.isWatching = false
  · rw [if_pos hw]; exact hw
  · rw [if_neg hw]

theorem stopWatching_of_not_watching (st : WatcherState)
    (h : st.isWatching = false) : stopWatching st = st := by
  unfold stopWatching
  rw [if_pos h]

theorem stopWatching_result_cases (st : WatcherState) :
    stopWatching st = st ∨
    ((stopWatching st).watchers = [] ∧ (stopWatching st).lastModified = []) := by
  unfold stopWatching
  by_cases hw : st.isWatching = false
  · rw [if_pos hw]; exact Or.inl rfl
  · rw [if_neg hw]; exact Or.inr ⟨rfl, rfl⟩

theorem reachable_not_watching_maps_empty :
    ∀ {st : WatcherState}, ReachableState st → st.isWatching = false →
      st.watchers = [] ∧ st.lastModified = [] := by
  intro st hr
  induction hr with
  | init => intro _; exact ⟨rfl, rfl⟩
  | start env fs projectRoot now cfg hst ih =>
      intro hw
      rcases startWatching_cases env fs projectRoot now cfg _ with heq | hT
      · rw [heq] at hw ⊢
        exact ih hw
      · rw [hw] at hT
        exact absurd hT (by decide)
  | stop hst ih =>
      intro hw
      rcases stopWatching_result_cases _ with heq | hm
      · rw [heq] at hw ⊢
        exact ih hw
      · exact hm

/-- C6 counterexample: with hot reloading enabled and a single
configured path that exists nowhere on the filesystem, `startWatching`
still transitions to the Watching state although no target resolved to
an existing directory — no watch handle was created at all. -/
theorem C6_idle_to_watching_counterexample :
    (startWatching env0 fsNone ['/', 'r'] 0 cfgGhost initialState).isWatching = true ∧
    (startWatching env0 fsNone ['/', 'r'] 0 cfgGhost initialState).openHandles = [] := by
  decide

/-- C6 amended: `startWatching` transitions Idle→Watching exactly when
hot reloading is enabled and the configured lambda-path list is
non-empty — regardless of whether any target resolves to an existing
directory; it returns the state unchanged (a no-op) when already
watching, when hot reloading is disabled, or when no paths are
configured. -/
theorem C6_startWatching_amended (env : Env) (fs : FsModel) (projectRoot : Str)
    (now : Nat) (cfg : LocalStackConfig) (st : WatcherState) :
    (st.isWatching = true → startWatching env fs projectRoot now cfg st = st) ∧
    (hotReloadEnabled cfg = false → startWatching env fs projectRoot now cfg st = st) ∧
    (lambdaPathsOf cfg = [] → startWatching env fs projectRoot now cfg st = st) ∧
    (hotReloadEnabled cfg = true → st.isWatching = false → lambdaPathsOf cfg ≠ [] →
      (startWatching env fs projectRoot now cfg st).isWatching = true) := by
  refine ⟨?_, ?_, ?_, ?_⟩
  · intro hw
    unfold startWatching
    rw [if_pos (Or.inr hw)]
  · intro he
    unfold startWatching
    rw [if_pos (Or.inl he)]
  · intro hp
    unfold startWatching
    by_cases hc : hotReloadEnabled cfg = false ∨ st.isWatching = true
    · rw [if_pos hc]
    · rw [if_neg hc]
      show (if lambdaPathsOf cfg = [] then st else _) = st
      rw [if_pos hp]
  · intro he hw hp
    have hc : ¬(hotReloadEnabled cfg = false ∨ st.isWatching = true) := by
      rintro (h | h)
      · rw [he] at h; exact absurd h (by decide)
      · rw [hw] at h; exact absurd h (by decide)
    unfold startWatching
    rw [if_neg hc]
    show (if lambdaPathsOf cfg = [] then st else _).isWatching = true
    rw [if_neg hp]

/-- Witness for C6 amended: a second call while already watching is a
no-op on the state. -/
theorem C6_startWatching_amended_witness :
    startWatching env0 fsNone ['/', 'r'] 0 cfgGhost
        { initialState with isWatching := true }
      = { initialState with isWatching := true } :=
  (C6_startWatching_amended env0 fsNone ['/', 'r'] 0 cfgGhost
      { initialState with isWatching := true }).1 rfl

/-- C7 counterexample: starting under `cfgDup` (two targets sharing the
path `/p`) and then stopping leaves a residual open native watch
handle — the first created handle was displaced from the registry by the
second and is never closed. -/
theorem C7_residual_handle_counterexample :
    (stopWatching stDup).openHandles ≠ [] := by decide

/-- C7 amended: `stopWatching` never raises (it is total), lowers the
watching flag, clears the watchers map and all debounce state on every
reachable state, closes every handle referenced by the registry, and is
idempotent — calling it twice in a row, or before any start, is safe;
but only registry-referenced handles are closed, so a handle displaced
by a duplicate-path registration can remain open. -/
theorem C7_stopWatching_amended (st : WatcherState) (hr : ReachableState st) :
    (stopWatching st).isWatching = false ∧
    (stopWatching st).watchers = [] ∧
    (stopWatching st).lastModified = [] ∧
    stopWatching (stopWatching st) = stopWatching st ∧
    stopWatching initialState = initialState ∧
    (∀ h ∈ (stopWatching st).openHandles, h ∈ st.openHandles) ∧
    (∀ h ∈ st.openHandles, (st.watchers.map Prod.snd).contains h.id = true →
        h ∉ (stopWatching st).openHandles) := by
  have hmapsOf : ∀ hw : st.isWatching = false,
      st.watchers = [] ∧ st.lastModified = [] :=
    fun hw => reachable_not_watching_maps_empty hr hw
  refine ⟨stopWatching_isWatching_false st, ?_, ?_,
    stopWatching_of_not_watching _ (stopWatching_isWatching_false st),
    stopWatching_of_not_watching initialState rfl, ?_, ?_⟩
  · rcases stopWatching_result_cases st with heq | hm
    · have hw : st.isWatching = false := by
        rw [← heq]; exact stopWatching_isWatching_false st
      rw [heq]
      exact (hmapsOf hw).1
    · exact hm.1
  · rcases stopWatching_result_cases st with heq | hm
    · have hw : st.isWatching = false := by
        rw [← heq]; exact stopWatching_isWatching_false st
      rw [heq]
      exact (hmapsOf hw).2
    · exact hm.2
  · intro h hmem
    by_cases hw : st.isWatching = false
    · rw [stopWatching_of_not_watching st hw] at hmem
      exact hmem
    · have hf : (stopWatching st).openHandles
          = st.openHandles.filter
              (fun x => ((st.watchers.map Prod.snd).contains x.id) = false) := by
        unfold stopWatching
        rw [if_neg hw]
      rw [hf] at hmem
      exact List.mem_of_mem_filter hmem
  · intro h hmem hcont hmem'
    by_cases hw : st.isWatching = false
    · rw [(hmapsOf hw).1] at hcont
      simp at hcont
    · have hf : (stopWatching st).openHandles
          = st.openHandles.filter
              (fun x => ((st.watchers.map Prod.snd).contains x.id) = false) := by
        unfold stopWatching
        rw [if_neg hw]
      rw [hf] at hmem'
      have hp := List.of_mem_filter hmem'
      simp only [decide_eq_true_eq] at hp
      rw [hcont] at hp
      exact absurd hp (by decide)

/-- Witness for C7 amended at the concrete duplicate-path start state:
stopping lowers the flag and clears both maps. -/
theorem C7_stopWatching_amended_witness :
    (stopWatching stDup).isWatching = false ∧
    (stopWatching stDup).watchers = [] ∧
    (stopWatching stDup).lastModified = [] :=
  ⟨(C7_stopWatching_amended stDup
      (ReachableState.start env0 fsP ['/', 'r'] 5 cfgDup ReachableState.init)).1,
   (C7_stopWatching_amended stDup
      (ReachableState.start env0 fsP ['/', 'r'] 5 cfgDup ReachableState.init)).2.1,
   (C7_stopWatching_amended stDup
      (ReachableState.start env0 fsP ['/', 'r'] 5 cfgDup ReachableState.init)).2.2.1⟩

theorem effInterval_pos (cfg : LocalStackConfig) : 0 < effInterval cfg := by
  unfold effInterval
  cases cfg.hotReloading.bind (fun hr => hr.watchInterval) with
  | none => decide
  | some n =>
      show 0 < if n = 0 then DEFAULT_WATCH_INTERVAL_MS else n
      by_cases hn : n = 0
      · rw [if_pos hn]; decide
      · rw [if_neg hn]; omega

theorem alookup_mapSet_self {β : Type} (k : Str) (v : β) :
    ∀ l : List (Str × β), alookup k (mapSet k v l) = some v := by
  intro l
  induction l with
  | nil => simp [mapSet, alookup]
  | cons kv rest ih =>
      obtain ⟨k', v'⟩ := kv
      unfold mapSet
      by_cases hk : k = k'
      · rw [if_pos hk]
        simp [alookup]
      · rw [if_neg hk]
        rw [alookup, if_neg hk]
        exact ih

theorem handleFileChange_suppressed (cfg : LocalStackConfig) (now : Nat)
    (fn p chg hd rt : Str) (st : WatcherState)
    (hc : now - (alookup p st.lastModified).getD 0 < effInterval cfg) :
    handleFileChange cfg now fn p chg hd rt st = st := by
  unfold handleFileChange
  rw [if_pos hc]

theorem handleFileChange_accepted (cfg : LocalStackConfig) (now : Nat)
    (fn p chg hd rt : Str) (st : WatcherState)
    (hc : ¬ now - (alookup p st.lastModified).getD 0 < effInterval cfg) :
    handleFileChange cfg now fn p chg hd rt st
      = { st with
          lastModified := mapSet p now st.lastModified,
          emitted := st.emitted ++
            [{ functionName := fn, localPath := p, changedFile := chg,
               handler := hd, runtime := rt, timestamp := now }] } := by
  unfold handleFileChange
  rw [if_neg hc]

theorem runBurst_no_accept (cfg : LocalStackConfig) (fn p hd rt : Str) (a : Nat) :
    ∀ (evs : List (Str × Nat)) (st : WatcherState),
      a ≤ (alookup p st.lastModified).getD 0 →
      (∀ e ∈ evs, e.2 < a + effInterval cfg) →
      runBurst cfg fn p hd rt evs st = st := by
  intro evs
  induction evs with
  | nil => intro st _ _; rfl
  | cons e tl ih =>
      intro st ha hb
      have hsup : handleFileChange cfg e.2 fn p e.1 hd rt st = st := by
        refine handleFileChange_suppressed cfg e.2 fn p e.1 hd rt st ?_
        have h1 : e.2 < a + effInterval cfg := hb e (List.mem_cons_self _ _)
        have hpos := effInterval_pos cfg
        omega
      show runBurst cfg fn p hd rt tl (handleFileChange cfg e.2 fn p e.1 hd rt st) = st
      rw [hsup]
      exact ih st ha (fun x hx => hb x (List.mem_cons_of_mem _ hx))

theorem runBurst_le_one (cfg : LocalStackConfig) (fn p hd rt : Str) (a : Nat) :
    ∀ (evs : List (Str × Nat)) (st : WatcherState),
      (∀ e ∈ evs, a ≤ e.2 ∧ e.2 < a + effInterval cfg) →
      (runBurst cfg fn p hd rt evs st).emitted.length ≤ st.emitted.length + 1 := by
  intro evs
  induction evs with
  | nil => intro st _; exact Nat.le_succ _
  | cons e tl ih =>
      intro st hb
      show (runBurst cfg fn p hd rt tl
              (handleFileChange cfg e.2 fn p e.1 hd rt st)).emitted.length
          ≤ st.emitted.length + 1
      by_cases hc : e.2 - (alookup p st.lastModified).getD 0 < effInterval cfg
      · rw [handleFileChange_suppressed cfg e.2 fn p e.1 hd rt st hc]
        exact ih st (fun x hx => hb x (List.mem_cons_of_mem _ hx))
      · rw [handleFileChange_accepted cfg e.2 fn p e.1 hd rt st hc]
        have hclock : a ≤ (alookup p (mapSet p e.2 st.lastModified)).getD 0 := by
          rw [alookup_mapSet_self]
          exact (hb e (List.mem_cons_self _ _)).1
        rw [runBurst_no_accept cfg fn p hd rt a tl _ hclock
          (fun x hx => (hb x (List.mem_cons_of_mem _ hx)).2)]
        simp

/-- C2: the debounce of `handleFileChange` is keyed by the watched path.
An event at time `now` with `now` at least one interval past the path's
debounce clock is accepted: it sets the clock to `now` and emits exactly
one notification carrying the function name, the watched path, the full
changed-file path, the handler, the runtime, and the timestamp.  An
event strictly inside the interval is ignored without any state change.
And any burst of qualifying events for the path whose times all lie in
one window `[a, a + interval)` yields at most one accepted (emitted)
notification, whatever the changed files are. -/
theorem C2_debounce_per_path (cfg : LocalStackConfig) (fn p chg hd rt : Str) :
    (∀ (now : Nat) (st : WatcherState),
        effInterval cfg ≤ now - (alookup p st.lastModified).getD 0 →
        (handleFileChange cfg now fn p chg hd rt st).emitted
            = st.emitted ++
              [{ functionName := fn, localPath := p, changedFile := chg,
                 handler := hd, runtime := rt, timestamp := now }] ∧
        alookup p (handleFileChange cfg now fn p chg hd rt st).lastModified
            = some now) ∧
    (∀ (now : Nat) (st : WatcherState),
        now - (alookup p st.lastModified).getD 0 < effInterval cfg →
        handleFileChange cfg now fn p chg hd rt st = st) ∧
    (∀ (evs : List (Str × Nat)) (a : Nat) (st : WatcherState),
        (∀ e ∈ evs, a ≤ e.2 ∧ e.2 < a + effInterval cfg) →
        (runBurst cfg fn p hd rt evs st).emitted.length
            ≤ st.emitted.length + 1) := by
  refine ⟨?_, ?_, ?_⟩
  · intro now st hge
    have hacc := handleFileChange_accepted cfg now fn p chg hd rt st (by omega)
    rw [hacc]
    exact ⟨rfl, alookup_mapSet_self p now st.lastModified⟩
  · intro now st hlt
    exact handleFileChange_suppressed cfg now fn p chg hd rt st hlt
  · intro evs a st hb
    exact runBurst_le_one cfg fn p hd rt a evs st hb

/-- Witness for C2 at a concrete scenario: one accepted event emits one
notification with all its fields, and a two-event burst inside one
window emits at most one. -/
theorem C2_debounce_per_path_witness :
    (handleFileChange cfgGhost 1000 ['f'] ['/', 'p'] ['c'] ['h'] ['r']
        initialState).emitted
      = [{ functionName := ['f'], localPath := ['/', 'p'], changedFile := ['c'],
           handler := ['h'], runtime := ['r'], timestamp := 1000 }] ∧
    (runBurst cfgGhost ['f'] ['/', 'p'] ['h'] ['r']
        [(['c'], 5), (['d'], 10)] initialState).emitted.length ≤ 1 := by
  refine ⟨?_, ?_⟩
  · have h := ((C2_debounce_per_path cfgGhost ['f'] ['/', 'p'] ['c'] ['h'] ['r']).1
      1000 initialState (by decide)).1
    simpa using h
  · have h := (C2_debounce_per_path cfgGhost ['f'] ['/', 'p'] ['c'] ['h'] ['r']).2.2
      [(['c'], 5), (['d'], 10)] 5 initialState (by decide)
    simpa using h

theorem watchCallback_suppressed (cfg : LocalStackConfig)
    (c : ResolvedLambdaConfig) (now : Nat) (filename : Str) (st : WatcherState)
    (hc : now - (alookup c.localPath st.lastModified).getD 0 < effInterval cfg) :
    watchCallback cfg c now filename st = st := by
  unfold watchCallback
  by_cases hfn : filename = []
  · rw [if_pos hfn]
  · rw [if_neg hfn]
    by_cases hext : lowerStr (extnameOf filename) ∈ c.fileExtensions
    · rw [if_pos hext]
      exact handleFileChange_suppressed cfg now c.functionName c.localPath
        (pathJoin c.localPath filename) c.handler c.runtime st hc
    · rw [if_neg hext]

theorem watchCallback_accepted (cfg : LocalStackConfig)
    (c : ResolvedLambdaConfig) (now : Nat) (filename : Str) (st : WatcherState)
    (hfn : filename ≠ [])
    (hext : lowerStr (extnameOf filename) ∈ c.fileExtensions)
    (hc : ¬ now - (alookup c.localPath st.lastModified).getD 0 < effInterval cfg) :
    watchCallback cfg c now filename st
      = { st with
          lastModified := mapSet c.localPath now st.lastModified,
          emitted := st.emitted ++
            [{ functionName := c.functionName, localPath := c.localPath,
               changedFile := pathJoin c.localPath filename,
               handler := c.handler, runtime := c.runtime, timestamp := now }] } := by
  unfold watchCallback
  rw [if_neg hfn]
  show (if lowerStr (extnameOf filename) ∈ c.fileExtensions
        then handleFileChange cfg now c.functionName c.localPath
          (pathJoin c.localPath filename) c.handler c.runtime st
        else st) = _
  rw [if_pos hext]
  exact handleFileChange_accepted cfg now c.functionName c.localPath
    (pathJoin c.localPath filename) c.handler c.runtime st hc

/-- C1 counterexample: starting from the initial state under `cfgDup`
(two targets with the same resolved localPath `/p`), more than one
native watch handle for `/p` is active — the second registration creates
a fresh handle instead of reusing the first — and the registry
references the fresh handle (id 1), not the original (id 0). -/
theorem C1_duplicate_path_counterexample :
    ¬ ((stDup.openHandles.filter
          (fun h => h.cfg.localPath = ['/', 'p'])).length ≤ 1) ∧
    alookup ['/', 'p'] stDup.watchers = some 1 := by decide

/-- C1 amended: registering two targets with the same existing directory
leaves exactly one registry entry for that path, but the entry holds the
second, freshly created native handle while the first handle is
displaced and stays open (the watch is duplicated, not reused).  A
single qualifying change under the path runs the callback of every open
handle — each target's logic is reached — but the path-keyed debounce
admits only the first registered target's notification, emitted once. -/
theorem C1_duplicate_path_amended (fs : FsModel) (cfg : LocalStackConfig)
    (now later : Nat) (t1 t2 : ResolvedLambdaConfig) (p filename : Str)
    (h1 : t1.localPath = p) (h2 : t2.localPath = p)
    (hex : fs.existsSync p = true) (hdir : fs.isDirectory p = true)
    (hfn : filename ≠ [])
    (hext1 : lowerStr (extnameOf filename) ∈ t1.fileExtensions)
    (hext2 : lowerStr (extnameOf filename) ∈ t2.fileExtensions)
    (hlater : now + effInterval cfg ≤ later) :
    (watchLambdaPath fs now (watchLambdaPath fs now initialState t1) t2).watchers
        = [(p, 1)] ∧
    (watchLambdaPath fs now (watchLambdaPath fs now initialState t1) t2).openHandles
        = [{ id := 0, cfg := t1 }, { id := 1, cfg := t2 }] ∧
    (fsEvent cfg p filename later
        (watchLambdaPath fs now (watchLambdaPath fs now initialState t1) t2)).emitted
      = [{ functionName := t1.functionName, localPath := p,
           changedFile := pathJoin p filename, handler := t1.handler,
           runtime := t1.runtime, timestamp := later }] := by
  have e1 : watchLambdaPath fs now initialState t1
      = { watchers := [(p, 0)], lastModified := [(p, now)], isWatching := false,
          openHandles := [{ id := 0, cfg := t1 }], nextHandleId := 1,
          emitted := [] } := by
    unfold watchLambdaPath
    rw [h1, hex, hdir, if_neg (by decide), if_neg (by decide)]
    rfl
  have e2 : watchLambdaPath fs now
      { watchers := [(p, 0)], lastModified := [(p, now)], isWatching := false,
        openHandles := [{ id := 0, cfg := t1 }], nextHandleId := 1,
        emitted := [] } t2
      = { watchers := [(p, 1)], lastModified := [(p, now)], isWatching := false,
          openHandles := [{ id := 0, cfg := t1 }, { id := 1, cfg := t2 }],
          nextHandleId := 2, emitted := [] } := by
    unfold watchLambdaPath
    rw [h2, hex, hdir, if_neg (by decide), if_neg (by decide)]
    simp [mapSet]
  rw [e1, e2]
  refine ⟨rfl, rfl, ?_⟩
  have ecall1 : watchCallback cfg t1 later filename
      { watchers := [(p, 1)], lastModified := [(p, now)], isWatching := false,
        openHandles := [{ id := 0, cfg := t1 }, { id := 1, cfg := t2 }],
        nextHandleId := 2, emitted := [] }
      = { watchers := [(p, 1)], lastModified := [(p, later)], isWatching := false,
          openHandles := [{ id := 0, cfg := t1 }, { id := 1, cfg := t2 }],
          nextHandleId := 2,
          emitted := [{ functionName := t1.functionName, localPath := p,
                        changedFile := pathJoin p filename, handler := t1.handler,
                        runtime := t1.runtime, timestamp := later }] } := by
    rw [watchCallback_accepted cfg t1 later filename _ hfn hext1
      (by rw [h1]; simp [alookup]; omega)]
    rw [h1]
    simp [mapSet]
  have ecall2 : watchCallback cfg t2 later filename
      { watchers := [(p, 1)], lastModified := [(p, later)], isWatching := false,
        openHandles := [{ id := 0, cfg := t1 }, { id := 1, cfg := t2 }],
        nextHandleId := 2,
        emitted := [{ functionName := t1.functionName, localPath := p,
                      changedFile := pathJoin p filename, handler := t1.handler,
                      runtime := t1.runtime, timestamp := later }] }
      = { watchers := [(p, 1)], lastModified := [(p, later)], isWatching := false,
          openHandles := [{ id := 0, cfg := t1 }, { id := 1, cfg := t2 }],
          nextHandleId := 2,
          emitted := [{ functionName := t1.functionName, localPath := p,
                        changedFile := pathJoin p filename, handler := t1.handler,
                        runtime := t1.runtime, timestamp := later }] } := by
    refine watchCallback_suppressed cfg t2 later filename _ ?_
    rw [h2]
    simp [alookup]
    exact effInterval_pos cfg
  show (if t2.localPath = p then
          watchCallback cfg t2 later filename
            (if t1.localPath = p then
              watchCallback cfg t1 later filename
                { watchers := [(p, 1)], lastModified := [(p, now)],
                  isWatching := false,
                  openHandles := [{ id := 0, cfg := t1 }, { id := 1, cfg := t2 }],
                  nextHandleId := 2, emitted := [] }
             else
              { watchers := [(p, 1)], lastModified := [(p, now)],
                isWatching := false,
                openHandles := [{ id := 0, cfg := t1 }, { id := 1, cfg := t2 }],
                nextHandleId := 2, emitted := [] })
        else
          (if t1.localPath = p then
              watchCallback cfg t1 later filename
                { watchers := [(p, 1)], lastModified := [(p, now)],
                  isWatching := false,
                  openHandles := [{ id := 0, cfg := t1 }, { id := 1, cfg := t2 }],
                  nextHandleId := 2, emitted := [] }
             else
              { watchers := [(p, 1)], lastModified := [(p, now)],
                isWatching := false,
                openHandles := [{ id := 0, cfg := t1 }, { id := 1, cfg := t2 }],
                nextHandleId := 2, emitted := [] })).emitted
      = [{ functionName := t1.functionName, localPath := p,
           changedFile := pathJoin p filename, handler := t1.handler,
           runtime := t1.runtime, timestamp := later }]
  rw [h1, h2, if_pos rfl, ecall1, if_pos rfl, ecall2]

/-- Witness for C1 amended at concrete targets on the directory `/p`:
the single change event `a.py` at time 1000 yields exactly the first
target's notification. -/
theorem C1_duplicate_path_amended_witness :
    (fsEvent cfgDup ['/', 'p'] ['a', '.', 'p', 'y'] 1000
        (watchLambdaPath fsP 5
          (watchLambdaPath fsP 5 initialState
            { functionName := ['f', '1'], localPath := ['/', 'p'],
              handler := ['h'], runtime := ['p', 'y'],
              fileExtensions := [['.', 'p', 'y']] })
          { functionName := ['f', '2'], localPath := ['/', 'p'],
            handler := ['h'], runtime := ['p', 'y'],
            fileExtensions := [['.', 'p', 'y']] })).emitted
      = [{ functionName := ['f', '1'], localPath := ['/', 'p'],
           changedFile := pathJoin ['/', 'p'] ['a', '.', 'p', 'y'],
           handler := ['h'], runtime := ['p', 'y'], timestamp := 1000 }] :=
  (C1_duplicate_path_amended fsP cfgDup 5 1000
    { functionName := ['f', '1'], localPath := ['/', 'p'], handler := ['h'],
      runtime := ['p', 'y'], fileExtensions := [['.', 'p', 'y']] }
    { functionName := ['f', '2'], localPath := ['/', 'p'], handler := ['h'],
      runtime := ['p', 'y'], fileExtensions := [['.', 'p', 'y']] }
    ['/', 'p'] ['a', '.', 'p', 'y']
    rfl rfl (by decide) (by decide) (by decide) (by decide) (by decide)
    (by decide)).2.2
